import Mathlib

/-!
Shallow embedding of the expense tracker record store
(src/Expense_Tracker.py).

Modelling choices:
* A record (Python dict with keys id/amount/category/date/note) is the
  structure `Expense`.  The store (`self.expenses`) is a `List Expense`.
* Python `float` amounts are modelled as `ℚ`: the claims under study are
  about which records are summed, not about floating-point rounding.
* A `datetime` is modelled as the calendar date `Date` (year, month,
  day).  `datetime` comparison is lexicographic on these components.
  The code stores `date.strftime("%Y-%m-%d")` and re-parses it with the
  same format, so the string field round-trips with the `Date` value and
  string comparison of the zero-padded serialisation agrees with the
  lexicographic order (datetime years are between 1 and 9999).
* `str(n)` / `int(s)` on ids are modelled by an explicit decimal
  printer/parser pair (`natToStr` / `strToNatD`).  `strToNatD` models
  `int()` on canonical decimal strings, which is the only way ids are
  produced by the code.
* Persistence (`_save`, `_load`) is I/O mirroring of the in-memory list
  and is not needed by any claim about the in-memory behaviour.
-/

namespace ExpenseTracker

/-- ASCII whitespace, as `str.strip()` removes it. -/
def isSpace (c : Char) : Bool :=
  c = ' ' || c = '\t' || c = '\n' || c = '\r' ||
    c = Char.ofNat 11 || c = Char.ofNat 12

/-- Model of Python `str.strip()`: drop leading and trailing
whitespace. -/
def pyStrip (s : String) : String :=
  ⟨((s.data.dropWhile isSpace).reverse.dropWhile isSpace).reverse⟩

/-- Lowercase one character (ASCII model of `str.lower()`). -/
def lowerChar (c : Char) : Char :=
  if 65 ≤ c.toNat ∧ c.toNat ≤ 90 then Char.ofNat (c.toNat + 32) else c

/-- Model of Python `str.lower()`. -/
def pyLower (s : String) : String :=
  ⟨s.data.map lowerChar⟩

/-- Model of Python `str.split(sep)` for a one-character separator
(also the behaviour of splitting on `"-"` or `"/"`). -/
def splitOnChar (sep : Char) : List Char → List (List Char)
  | [] => [[]]
  | c :: rest =>
    let r := splitOnChar sep rest
    if c = sep then [] :: r
    else
      match r with
      | [] => [[c]]
      | h :: t => (c :: h) :: t

/-- A calendar date, modelling the date component of a Python `datetime`. -/
structure Date where
  y : Nat
  m : Nat
  d : Nat
deriving DecidableEq

/-- `datetime` order: lexicographic on (year, month, day). -/
def Date.le (a b : Date) : Prop :=
  a.y < b.y ∨ (a.y = b.y ∧ (a.m < b.m ∨ (a.m = b.m ∧ a.d ≤ b.d)))

/-- Strict `datetime` order. -/
def Date.lt (a b : Date) : Prop :=
  a.y < b.y ∨ (a.y = b.y ∧ (a.m < b.m ∨ (a.m = b.m ∧ a.d < b.d)))

instance : DecidableRel Date.le := fun a b => by
  unfold Date.le; infer_instance

instance : DecidableRel Date.lt := fun a b => by
  unfold Date.lt; infer_instance

/-- One expense record: the dict
`{"id": ..., "amount": ..., "category": ..., "date": ..., "note": ...}`. -/
structure Expense where
  id : String
  amount : ℚ
  category : String
  date : Date
  note : String
deriving DecidableEq

instance : BEq Expense := ⟨fun a b => decide (a = b)⟩

instance : LawfulBEq Expense where
  eq_of_beq h := of_decide_eq_true h
  rfl := by simp [BEq.beq]

/-- Decimal digits of `n`, most significant first (`fuel`-guarded so that
it unfolds by kernel reduction; called with `fuel > n`). -/
def natToDigits : Nat → Nat → List Char
  | 0, _ => []
  | fuel + 1, n =>
    if n < 10 then [Nat.digitChar n]
    else natToDigits fuel (n / 10) ++ [Nat.digitChar (n % 10)]

/-- Model of Python `str(n)` for a natural number: its decimal numeral. -/
def natToStr (n : Nat) : String :=
  ⟨natToDigits (n + 1) n⟩

/-- A decimal digit character. -/
def isDig (c : Char) : Bool :=
  48 ≤ c.toNat && c.toNat ≤ 57

/-- Value of a most-significant-first digit string. -/
def digitsVal (cs : List Char) : Nat :=
  cs.foldl (fun a c => a * 10 + (c.toNat - 48)) 0

/-- Model of Python `int(s)` on the canonical decimal strings that ids
are made of (the only ids the code ever produces). -/
def strToNatD (s : String) : Nat :=
  if !s.data.isEmpty && s.data.all isDig then digitsVal s.data else 0

/-- `int(e["id"])`. -/
def idNat (e : Expense) : Nat := strToNatD e.id

/-- Every id in the store is the canonical decimal string of a natural
number (true of every store the code can build, since `add_expense` is
the only producer of ids). -/
def Canonical (s : List Expense) : Prop :=
  ∀ e ∈ s, ∃ n : Nat, e.id = natToStr n

/-- `ExpenseTracker._next_id`: 1 on an empty store, otherwise
`max(int(e["id"]) for e in self.expenses) + 1`. -/
def next_id (s : List Expense) : Nat :=
  if s.isEmpty then 1 else (s.map idNat).foldl Nat.max 0 + 1

/-- `ExpenseTracker.add_expense`: builds the record (stripping category
and note, canonical date string), appends it and returns it. -/
def add_expense (s : List Expense) (amount : ℚ) (category : String)
    (date : Date) (note : String) : Expense × List Expense :=
  let e : Expense :=
    { id := natToStr (next_id s), amount := amount,
      category := pyStrip category, date := date, note := pyStrip note }
  (e, s ++ [e])

/-- The sort key comparison used by
`sorted(..., key=lambda x: x["date"], reverse=True)`. -/
def dateGe (a b : Expense) : Prop := Date.le b.date a.date

instance : DecidableRel dateGe := fun a b => by
  unfold dateGe; infer_instance

instance : IsTotal Expense dateGe :=
  ⟨fun a b => by unfold dateGe Date.le; omega⟩

instance : IsTrans Expense dateGe :=
  ⟨fun a b c h1 h2 => by unfold dateGe Date.le at *; omega⟩

/-- Stable descending-by-date sort (Python `sorted` with
`reverse=True`). -/
def sortDesc (l : List Expense) : List Expense :=
  List.insertionSort dateGe l

/-- `ExpenseTracker.list_expenses`: sorts by date descending and applies
`sorted_list[:limit] if limit else sorted_list` (note: Python slicing
and truthiness, so `limit = 0` and `limit = None` return everything and
a negative limit drops records from the end). -/
def list_expenses (s : List Expense) (limit : Option Int) : List Expense :=
  let sorted := sortDesc s
  match limit with
  | none => sorted
  | some n =>
    if n = 0 then sorted
    else if 0 < n then sorted.take n.toNat
    else sorted.take (sorted.length - (-n).toNat)

/-- `ExpenseTracker.find_by_id`: first record whose id equals `id_str`. -/
def find_by_id (s : List Expense) (id_str : String) : Option Expense :=
  match s with
  | [] => none
  | e :: rest => if e.id = id_str then some e else find_by_id rest id_str

/-- `ExpenseTracker.delete_expense`: find by id, `list.remove` it. -/
def delete_expense (s : List Expense) (id_str : String) :
    Bool × List Expense :=
  match find_by_id s id_str with
  | none => (false, s)
  | some e => (true, s.erase e)

/-- The in-place field updates of `edit_expense` on the found record. -/
def applyEdit (e : Expense) (amount : Option ℚ) (category : Option String)
    (date : Option Date) (note : Option String) : Expense :=
  { e with
    amount := amount.getD e.amount,
    category := category.getD e.category,
    date := date.getD e.date,
    note := note.getD e.note }

/-- Replace the first record whose id is `id_str` (the record
`find_by_id` returned a reference to) by `newE`. -/
def replaceFirstById (s : List Expense) (id_str : String) (newE : Expense) :
    List Expense :=
  match s with
  | [] => []
  | e :: rest =>
    if e.id = id_str then newE :: rest
    else e :: replaceFirstById rest id_str newE

/-- `ExpenseTracker.edit_expense`: mutates the found record's supplied
fields in place; `False` when the id is absent. -/
def edit_expense (s : List Expense) (id_str : String) (amount : Option ℚ)
    (category : Option String) (date : Option Date) (note : Option String) :
    Bool × List Expense :=
  match find_by_id s id_str with
  | none => (false, s)
  | some e => (true, replaceFirstById s id_str (applyEdit e amount category date note))

/-- The per-record keep condition of the `filter_expenses` loop: the
record is skipped when `category` is truthy (non-`None` and non-empty)
and the lowercased categories differ, or when its date falls outside a
supplied bound. -/
def filterKeep (category : Option String) (start fin : Option Date)
    (e : Expense) : Bool :=
  (match category with
   | none => true
   | some c => c = "" || pyLower e.category = pyLower c)
  && (match start with
      | none => true
      | some st => !(Date.lt e.date st))
  && (match fin with
      | none => true
      | some en => !(Date.lt en e.date))

/-- `ExpenseTracker.filter_expenses`: linear scan with the three skip
conditions, then sort by date descending. -/
def filter_expenses (s : List Expense) (category : Option String)
    (start fin : Option Date) : List Expense :=
  sortDesc (s.filter (filterKeep category start fin))

/-- The record predicate of the spec sentence for `filter`, amended
only in that a supplied empty-string category imposes no category
condition: for a supplied non-empty category the lowercased categories
must be equal, and the date must lie within the supplied inclusive
bounds. -/
def amendedKeep (category : Option String) (start fin : Option Date)
    (e : Expense) : Prop :=
  (match category with
   | none => True
   | some c => c ≠ "" → pyLower e.category = pyLower c) ∧
  (match start with
   | none => True
   | some a => Date.le a e.date) ∧
  (match fin with
   | none => True
   | some b => Date.le e.date b)

instance (category : Option String) (start fin : Option Date) (e : Expense) :
    Decidable (amendedKeep category start fin e) := by
  unfold amendedKeep
  cases category <;> cases start <;> cases fin <;> exact inferInstance

/-- `ExpenseTracker.total`: sum of `amount` over the filtered records. -/
def total (s : List Expense) (category : Option String)
    (start fin : Option Date) : ℚ :=
  ((filter_expenses s category start fin).map Expense.amount).sum

/-- `summary.get(k, 0.0) + amt` followed by `summary[k] = ...`:
update the value at key `k` in an insertion-ordered dict, appending the
key when absent. -/
def updAssoc (m : List (String × ℚ)) (k : String) (amt : ℚ) :
    List (String × ℚ) :=
  match m with
  | [] => [(k, amt)]
  | (k1, v) :: rest =>
    if k1 = k then (k1, v + amt) :: rest else (k1, v) :: updAssoc rest k amt

/-- `summary.get(k, 0.0)`. -/
def lookupD (m : List (String × ℚ)) (k : String) : ℚ :=
  match m with
  | [] => 0
  | (k1, v) :: rest => if k1 = k then v else lookupD rest k

/-- `ExpenseTracker.summary_by_category`: fold the date-filtered records
into a dict keyed by the exact stored category string. -/
def summary_by_category (s : List Expense) (start fin : Option Date) :
    List (String × ℚ) :=
  (filter_expenses s none start fin).foldl
    (fun acc e => updAssoc acc e.category e.amount) []

/-- Gregorian leap year. -/
def isLeap (y : Nat) : Bool :=
  (y % 4 = 0 && y % 100 != 0) || y % 400 = 0

/-- Days in a month, as the `datetime` constructor validates them. -/
def daysInMonth (y m : Nat) : Nat :=
  if m = 2 then (if isLeap y then 29 else 28)
  else if m = 4 || m = 6 || m = 9 || m = 11 then 30
  else 31

/-- Validity check done by the `datetime` constructor (hence by
`strptime` after its regex match). -/
def validDate (y m d : Nat) : Bool :=
  1 ≤ y && y ≤ 9999 && 1 ≤ m && m ≤ 12 && 1 ≤ d && d ≤ daysInMonth y m

/-- A numeric `strptime` field: 1 to `maxLen` decimal digits. -/
def numField (l : List Char) (maxLen : Nat) : Bool :=
  !l.isEmpty && l.length ≤ maxLen && l.all isDig

/-- `datetime.strptime(s, "%Y-%m-%d")`: up-to-4-digit year, up-to-2-digit
month and day separated by literal dashes, then calendar validation. -/
def strptimeYMD (s : String) : Option Date :=
  match splitOnChar '-' s.data with
  | [ys, ms, ds] =>
    if numField ys 4 && numField ms 2 && numField ds 2 then
      let y := digitsVal ys
      let m := digitsVal ms
      let d := digitsVal ds
      if validDate y m d then some ⟨y, m, d⟩ else none
    else none
  | _ => none

/-- `datetime.strptime(s, "%d-%m-%Y")` / `"%d/%m/%Y"`: day and month
first, separated by `sep`. -/
def strptimeDMY (sep : Char) (s : String) : Option Date :=
  match splitOnChar sep s.data with
  | [ds, ms, ys] =>
    if numField ds 2 && numField ms 2 && numField ys 4 then
      let y := digitsVal ys
      let m := digitsVal ms
      let d := digitsVal ds
      if validDate y m d then some ⟨y, m, d⟩ else none
    else none
  | _ => none

/-- `parse_date` (module level in the source).  `iso` abstracts the
library fallback `datetime.fromisoformat`; `today` abstracts
`datetime.today()`.  Returns `none` where the source raises
`ValueError("Date format not recognized...")`. -/
def parse_date (iso : String → Option Date) (today : Date) (text : String) :
    Option Date :=
  let t := pyStrip text
  if t = "" || pyLower t = "today" || pyLower t = "t" then some today
  else
    match strptimeYMD t with
    | some d => some d
    | none =>
      match strptimeDMY '-' t with
      | some d => some d
      | none =>
        match strptimeDMY '/' t with
        | some d => some d
        | none => iso t

/-- One object of the imported JSON array.  `amount = none` models a
missing `"amount"` key or a value `float()` rejects; the other fields
model `e.get(key, default)` with `none` for an absent key. -/
structure RawRecord where
  amount : Option ℚ
  category : Option String
  date : Option String
  note : Option String

/-- Whether one imported object parses: its amount is numeric and its
date string (defaulting to `""`, i.e. today) parses. -/
def importOk (iso : String → Option Date) (today : Date) (r : RawRecord) :
    Bool :=
  r.amount.isSome && (parse_date iso today (r.date.getD "")).isSome

/-- The per-object body of the `import_from_json` loop: `add_expense`
inside `try`/`except: continue`. -/
def importStep (iso : String → Option Date) (today : Date)
    (s : List Expense) (r : RawRecord) : List Expense :=
  match r.amount, parse_date iso today (r.date.getD "") with
  | some a, some d =>
    (add_expense s a (r.category.getD "uncategorized") d (r.note.getD "")).2
  | _, _ => s

/-- `ExpenseTracker.import_from_json`: append every object of the file,
skipping the ones that fail to parse. -/
def import_from_json (iso : String → Option Date) (today : Date)
    (s : List Expense) (raws : List RawRecord) : List Expense :=
  raws.foldl (importStep iso today) s

/-! ### Properties of the date order -/

theorem Date.not_lt {a b : Date} : ¬ Date.lt a b ↔ Date.le b a := by
  unfold Date.lt Date.le; omega

/-! ### Properties of the decimal id representation -/

theorem digitChar_toNat {n : Nat} (h : n < 10) :
    (Nat.digitChar n).toNat = n + 48 := by
  interval_cases n <;> rfl

theorem isDig_digitChar {n : Nat} (h : n < 10) :
    isDig (Nat.digitChar n) = true := by
  interval_cases n <;> rfl

theorem natToDigits_ne_nil (fuel n : Nat) : natToDigits (fuel + 1) n ≠ [] := by
  unfold natToDigits
  split <;> simp

theorem natToDigits_all_isDig :
    ∀ fuel n, (natToDigits fuel n).all isDig = true := by
  intro fuel
  induction fuel with
  | zero => intro n; rfl
  | succ fuel ih =>
    intro n
    unfold natToDigits
    split
    · simp [List.all_cons, isDig_digitChar, *]
    · simp only [List.all_append, ih, Bool.true_and, List.all_cons,
        List.all_nil, Bool.and_true]
      exact isDig_digitChar (Nat.mod_lt _ (by omega))

theorem foldl_natToDigits :
    ∀ fuel n a, n < fuel →
      (natToDigits fuel n).foldl (fun a c => a * 10 + (c.toNat - 48)) a =
        a * 10 ^ (natToDigits fuel n).length + n := by
  intro fuel
  induction fuel with
  | zero => omega
  | succ fuel ih =>
    intro n a hn
    unfold natToDigits
    split
    · simp only [List.foldl_cons, List.foldl_nil, List.length_cons,
        List.length_nil, pow_one, digitChar_toNat (by omega : n < 10)]
      omega
    · have hdiv : n / 10 < fuel := by omega
      simp only [List.foldl_append, List.foldl_cons, List.foldl_nil,
        List.length_append, List.length_cons, List.length_nil, ih _ a hdiv,
        digitChar_toNat (Nat.mod_lt n (by omega))]
      have hmod : n % 10 + 48 - 48 = n % 10 := by omega
      rw [hmod, pow_succ]
      have expand : (a * 10 ^ (natToDigits fuel (n / 10)).length + n / 10) * 10
          + n % 10 =
          a * (10 ^ (natToDigits fuel (n / 10)).length * 10)
          + (n / 10 * 10 + n % 10) := by ring
      rw [expand]
      have := Nat.div_add_mod n 10
      omega

/-- `int(str(n)) = n`: the decimal printer/parser pair round-trips. -/
theorem strToNatD_natToStr (n : Nat) : strToNatD (natToStr n) = n := by
  have hne : natToDigits (n + 1) n ≠ [] := natToDigits_ne_nil n n
  have hall : (natToDigits (n + 1) n).all isDig = true :=
    natToDigits_all_isDig (n + 1) n
  have hfold := foldl_natToDigits (n + 1) n 0 (by omega)
  have hemp : (natToDigits (n + 1) n).isEmpty = false := by
    cases hcase : natToDigits (n + 1) n with
    | nil => exact absurd hcase hne
    | cons a l => rfl
  simp only [strToNatD, natToStr, digitsVal]
  rw [if_pos (by rw [hemp, hall]; rfl)]
  rw [hfold]
  omega

theorem idNat_of_canonical {e : Expense} {n : Nat} (h : e.id = natToStr n) :
    idNat e = n := by
  simp [idNat, h, strToNatD_natToStr]

theorem foldl_max_le_of_mem :
    ∀ (l : List Nat) (a x : Nat), x ∈ l → x ≤ l.foldl Nat.max a := by
  intro l
  induction l with
  | nil => intro a x hx; cases hx
  | cons y rest ih =>
    intro a x hx
    rcases List.mem_cons.1 hx with h | h
    · subst h
      have : ∀ (l : List Nat) (b : Nat), b ≤ l.foldl Nat.max b := by
        intro l
        induction l with
        | nil => intro b; simp
        | cons z r ihz =>
          intro b
          calc b ≤ Nat.max b z := Nat.le_max_left _ _
          _ ≤ r.foldl Nat.max (Nat.max b z) := ihz _
      calc x ≤ Nat.max a x := Nat.le_max_right _ _
      _ ≤ rest.foldl Nat.max (Nat.max a x) := this _ _
    · exact ih _ x h

theorem foldl_max_mem :
    ∀ (l : List Nat) (a : Nat), l.foldl Nat.max a ∈ l ∨ l.foldl Nat.max a = a := by
  intro l
  induction l with
  | nil => intro a; right; rfl
  | cons y rest ih =>
    intro a
    simp only [List.foldl_cons]
    rcases ih (Nat.max a y) with h | h
    · left; exact List.mem_cons_of_mem _ h
    · rcases Nat.le_total a y with hy | hy
      · left
        have hmax : Nat.max a y = y := Nat.max_eq_right hy
        rw [h, hmax]
        exact List.mem_cons_self _ _
      · right
        rw [h]
        exact Nat.max_eq_left hy

/-- On any store, every parsed id is strictly below `next_id`. -/
theorem idNat_lt_next_id {s : List Expense} {e : Expense} (he : e ∈ s) :
    idNat e < next_id s := by
  unfold next_id
  have hne : ¬s.isEmpty := by
    cases s with
    | nil => cases he
    | cons a l => simp
  rw [if_neg hne]
  have := foldl_max_le_of_mem (s.map idNat) 0 (idNat e)
    (List.mem_map_of_mem idNat he)
  omega

/-- On a nonempty store, `next_id` is one more than an id attained in
the store (i.e. `max + 1`). -/
theorem next_id_attained {s : List Expense} (h : s ≠ []) :
    ∃ e ∈ s, next_id s = idNat e + 1 := by
  unfold next_id
  have hne : ¬s.isEmpty := by simp [h]
  rw [if_neg hne]
  rcases foldl_max_mem (s.map idNat) 0 with hm | hm
  · rcases List.mem_map.1 hm with ⟨e, he, hid⟩
    exact ⟨e, he, by omega⟩
  · cases s with
    | nil => exact absurd rfl h
    | cons e rest =>
      refine ⟨e, List.mem_cons_self _ _, ?_⟩
      have hle := foldl_max_le_of_mem ((e :: rest).map idNat) 0 (idNat e)
        (List.mem_map_of_mem idNat (List.mem_cons_self _ _))
      omega

/-! ### Structure of find / delete / edit -/

theorem find_by_id_none :
    ∀ (s : List Expense) (id_str : String),
      find_by_id s id_str = none ↔ ∀ e ∈ s, e.id ≠ id_str := by
  intro s id_str
  induction s with
  | nil => simp [find_by_id]
  | cons a rest ih =>
    unfold find_by_id
    by_cases ha : a.id = id_str
    · simp [ha]
    · simp only [if_neg ha, ih, List.mem_cons]
      constructor
      · rintro h e (rfl | he)
        · exact ha
        · exact h e he
      · intro h e he
        exact h e (Or.inr he)

theorem find_by_id_some :
    ∀ (s : List Expense) (id_str : String) (e : Expense),
      find_by_id s id_str = some e →
        e.id = id_str ∧
        ∃ pre post, s = pre ++ e :: post ∧ ∀ x ∈ pre, x.id ≠ id_str := by
  intro s
  induction s with
  | nil => intro id_str e h; simp [find_by_id] at h
  | cons a rest ih =>
    intro id_str e h
    unfold find_by_id at h
    by_cases ha : a.id = id_str
    · rw [if_pos ha] at h
      cases h
      exact ⟨ha, [], rest, rfl, by simp⟩
    · rw [if_neg ha] at h
      obtain ⟨hid, pre, post, hsplit, hpre⟩ := ih id_str e h
      refine ⟨hid, a :: pre, post, by rw [hsplit]; rfl, ?_⟩
      intro x hx
      rcases List.mem_cons.1 hx with rfl | hx
      · exact ha
      · exact hpre x hx

theorem erase_decomp :
    ∀ (pre post : List Expense) (e : Expense), (∀ x ∈ pre, x ≠ e) →
      (pre ++ e :: post).erase e = pre ++ post := by
  intro pre
  induction pre with
  | nil =>
    intro post e _
    simp [List.erase_cons]
  | cons a pre ih =>
    intro post e hne
    have hae : (a == e) = false := by
      have : a ≠ e := hne a (List.mem_cons_self _ _)
      simp [BEq.beq, this]
    simp only [List.cons_append, List.erase_cons, hae, Bool.false_eq_true,
      if_false]
    rw [ih post e (fun x hx => hne x (List.mem_cons_of_mem _ hx))]

theorem replaceFirstById_decomp :
    ∀ (pre post : List Expense) (e newE : Expense) (id_str : String),
      (∀ x ∈ pre, x.id ≠ id_str) → e.id = id_str →
      replaceFirstById (pre ++ e :: post) id_str newE = pre ++ newE :: post := by
  intro pre
  induction pre with
  | nil =>
    intro post e newE id_str _ he
    simp [replaceFirstById, he]
  | cons a pre ih =>
    intro post e newE id_str hne he
    have ha : a.id ≠ id_str := hne a (List.mem_cons_self _ _)
    simp only [List.cons_append, replaceFirstById, if_neg ha]
    exact congrArg (fun l => a :: l)
      (ih post e newE id_str (fun x hx => hne x (List.mem_cons_of_mem _ hx)) he)

/-- Claim C3: `delete_expense` removes the (first) record carrying the
id and returns `true` when one exists; on an unknown id it returns
`false` and leaves the store untouched (and, being a total function,
raises nothing). -/
theorem claim3_delete (s : List Expense) (id_str : String) :
    (find_by_id s id_str = none → delete_expense s id_str = (false, s)) ∧
    (∀ e, find_by_id s id_str = some e →
      ∃ pre post, s = pre ++ e :: post ∧ (∀ x ∈ pre, x.id ≠ id_str) ∧
        e.id = id_str ∧ delete_expense s id_str = (true, pre ++ post)) := by
  constructor
  · intro h
    unfold delete_expense
    rw [h]
  · intro e h
    obtain ⟨hid, pre, post, hsplit, hpre⟩ := find_by_id_some s id_str e h
    refine ⟨pre, post, hsplit, hpre, hid, ?_⟩
    have hnee : ∀ x ∈ pre, x ≠ e := by
      intro x hx hxe
      exact hpre x hx (hxe ▸ hid)
    unfold delete_expense
    rw [h]
    show (true, s.erase e) = (true, pre ++ post)
    rw [hsplit, erase_decomp pre post e hnee]

/-- Claim C3 witness: on the two-record store, deleting id 2 removes
exactly that record, and deleting an unknown id returns `false` with
the store intact. -/
theorem claim3_witness :
    (∃ pre post,
        [Expense.mk "1" 5 "food" ⟨2024, 1, 1⟩ "",
         Expense.mk "2" 7 "bus" ⟨2024, 1, 2⟩ ""] = pre ++
          Expense.mk "2" 7 "bus" ⟨2024, 1, 2⟩ "" :: post ∧
        (∀ x ∈ pre, x.id ≠ "2") ∧
        (Expense.mk "2" 7 "bus" ⟨2024, 1, 2⟩ "").id = "2" ∧
        delete_expense
          [Expense.mk "1" 5 "food" ⟨2024, 1, 1⟩ "",
           Expense.mk "2" 7 "bus" ⟨2024, 1, 2⟩ ""] "2" = (true, pre ++ post)) ∧
    delete_expense [Expense.mk "1" 5 "food" ⟨2024, 1, 1⟩ ""] "9" =
      (false, [Expense.mk "1" 5 "food" ⟨2024, 1, 1⟩ ""]) := by
  constructor
  · exact (claim3_delete _ "2").2 _ (by decide)
  · exact (claim3_delete _ "9").1 (by decide)

/-- Claim C2: when a record with the id exists, `edit_expense` returns
`true` and replaces exactly that record, each supplied field taking the
new value and each omitted field keeping its prior value, all other
records untouched; on an unknown id it returns `false` and changes
nothing. -/
theorem claim2_edit (s : List Expense) (id_str : String) (amount : Option ℚ)
    (category : Option String) (date : Option Date) (note : Option String) :
    (find_by_id s id_str = none →
      edit_expense s id_str amount category date note = (false, s)) ∧
    (∀ e, find_by_id s id_str = some e →
      ∃ pre post, s = pre ++ e :: post ∧ (∀ x ∈ pre, x.id ≠ id_str) ∧
        e.id = id_str ∧
        edit_expense s id_str amount category date note =
          (true, pre ++
            { id := e.id,
              amount := amount.getD e.amount,
              category := category.getD e.category,
              date := date.getD e.date,
              note := note.getD e.note } :: post)) := by
  constructor
  · intro h
    unfold edit_expense
    rw [h]
  · intro e h
    obtain ⟨hid, pre, post, hsplit, hpre⟩ := find_by_id_some s id_str e h
    refine ⟨pre, post, hsplit, hpre, hid, ?_⟩
    unfold edit_expense
    rw [h]
    show (true, replaceFirstById s id_str (applyEdit e amount category date note)) = _
    rw [hsplit, replaceFirstById_decomp pre post e _ id_str hpre hid]
    rfl

/-- Claim C2 witness: editing only the amount of record 2 changes that
one field of that one record; editing an unknown id is a no-op. -/
theorem claim2_witness :
    (∃ pre post,
        [Expense.mk "1" 5 "food" ⟨2024, 1, 1⟩ "a",
         Expense.mk "2" 7 "bus" ⟨2024, 1, 2⟩ "b"] = pre ++
          Expense.mk "2" 7 "bus" ⟨2024, 1, 2⟩ "b" :: post ∧
        (∀ x ∈ pre, x.id ≠ "2") ∧
        (Expense.mk "2" 7 "bus" ⟨2024, 1, 2⟩ "b").id = "2" ∧
        edit_expense
          [Expense.mk "1" 5 "food" ⟨2024, 1, 1⟩ "a",
           Expense.mk "2" 7 "bus" ⟨2024, 1, 2⟩ "b"] "2"
          (some 9) none none none =
          (true, pre ++ Expense.mk "2" 9 "bus" ⟨2024, 1, 2⟩ "b" :: post)) ∧
    edit_expense [Expense.mk "1" 5 "food" ⟨2024, 1, 1⟩ "a"] "9"
      (some 9) none none none =
      (false, [Expense.mk "1" 5 "food" ⟨2024, 1, 1⟩ "a"]) := by
  constructor
  · exact (claim2_edit _ "2" (some 9) none none none).2 _ (by decide)
  · exact (claim2_edit _ "9" (some 9) none none none).1 (by decide)

/-! ### Claim C1: id assignment -/

/-- Claim C1 counterexample: `add` assigns id "1" to the first record;
deleting it empties the store, and the very next `add` assigns id "1"
again — so assigned ids are not unique across the store's lifetime and
an id is reused after the record holding it is deleted. -/
theorem claim1_counterexample :
    (add_expense [] 5 "food" ⟨2024, 1, 1⟩ "").1.id = "1" ∧
    (delete_expense (add_expense [] 5 "food" ⟨2024, 1, 1⟩ "").2 "1").1 = true ∧
    (add_expense
        (delete_expense (add_expense [] 5 "food" ⟨2024, 1, 1⟩ "").2 "1").2
        6 "food" ⟨2024, 1, 2⟩ "").1.id = "1" :=
  ⟨rfl, rfl, rfl⟩

/-- Claim C1 (amended): each newly assigned id equals
max(existing ids) + 1 as an integer (1 for an empty store), so a fresh
id is strictly greater than — hence distinct from — every id currently
in the store, and id-uniqueness within the store is preserved by add
and delete; but ids are not unique across the store's lifetime: once
the record holding the current maximum id is deleted, its id can be
assigned again. -/
theorem claim1_amended (s : List Expense) (amount : ℚ)
    (category note id_str : String) (date : Date) (h : Canonical s) :
    (s = [] → next_id s = 1) ∧
    (∀ e ∈ s, idNat e < next_id s) ∧
    (s ≠ [] → ∃ e ∈ s, next_id s = idNat e + 1) ∧
    (add_expense s amount category date note).1.id = natToStr (next_id s) ∧
    (add_expense s amount category date note).1.id ∉ s.map Expense.id ∧
    Canonical (add_expense s amount category date note).2 ∧
    ((s.map Expense.id).Nodup →
      (((add_expense s amount category date note).2).map Expense.id).Nodup) ∧
    Canonical (delete_expense s id_str).2 ∧
    ((s.map Expense.id).Nodup →
      (((delete_expense s id_str).2).map Expense.id).Nodup) := by
  have hnotmem :
      (add_expense s amount category date note).1.id ∉ s.map Expense.id := by
    intro hmem
    rcases List.mem_map.1 hmem with ⟨e, he, hide⟩
    have h2 : e.id = natToStr (next_id s) := hide
    have h3 : idNat e = next_id s := idNat_of_canonical h2
    have h4 : idNat e < next_id s := idNat_lt_next_id he
    omega
  refine ⟨?_, ?_, ?_, rfl, hnotmem, ?_, ?_, ?_, ?_⟩
  · intro hs; subst hs; rfl
  · intro e he; exact idNat_lt_next_id he
  · exact next_id_attained
  · intro e he
    simp only [add_expense, List.mem_append, List.mem_singleton] at he
    rcases he with he | rfl
    · exact h e he
    · exact ⟨next_id s, rfl⟩
  · intro hnd
    show ((s ++ [(add_expense s amount category date note).1]).map
      Expense.id).Nodup
    rw [List.map_append]
    refine List.Nodup.append hnd (List.nodup_singleton _) ?_
    intro a ha hb
    simp only [List.map_cons, List.map_nil, List.mem_singleton] at hb
    subst hb
    exact hnotmem ha
  · cases hfind : find_by_id s id_str with
    | none =>
      unfold delete_expense
      rw [hfind]
      exact h
    | some e =>
      unfold delete_expense
      rw [hfind]
      intro x hx
      exact h x (List.mem_of_mem_erase hx)
  · intro hnd
    cases hfind : find_by_id s id_str with
    | none =>
      unfold delete_expense
      rw [hfind]
      exact hnd
    | some e =>
      unfold delete_expense
      rw [hfind]
      exact List.Nodup.sublist (List.Sublist.map Expense.id
        (List.erase_sublist e s)) hnd

/-- Claim C1 witness: on the canonical two-record store with ids 1 and
2, the freshly assigned id is not among the stored ids. -/
theorem claim1_witness :
    (add_expense
        [Expense.mk "1" 5 "a" ⟨2024, 1, 1⟩ "",
         Expense.mk "2" 7 "b" ⟨2024, 1, 2⟩ ""] 3 "c" ⟨2024, 1, 3⟩ "").1.id ∉
      ([Expense.mk "1" 5 "a" ⟨2024, 1, 1⟩ "",
        Expense.mk "2" 7 "b" ⟨2024, 1, 2⟩ ""].map Expense.id) := by
  have hcan : Canonical
      [Expense.mk "1" 5 "a" ⟨2024, 1, 1⟩ "",
       Expense.mk "2" 7 "b" ⟨2024, 1, 2⟩ ""] := by
    intro e he
    rcases List.mem_cons.1 he with rfl | he
    · exact ⟨1, by decide⟩
    · rcases List.mem_cons.1 he with rfl | he
      · exact ⟨2, by decide⟩
      · cases he
  exact (claim1_amended _ 3 "c" "" "0" ⟨2024, 1, 3⟩ hcan).2.2.2.2.1

/-! ### Claims C4, C5, C7, C9: filtering, totals, listing -/

theorem filterKeep_iff (category : Option String) (start fin : Option Date)
    (e : Expense) :
    filterKeep category start fin e = true ↔ amendedKeep category start fin e := by
  unfold filterKeep amendedKeep
  cases category <;> cases start <;> cases fin <;>
    simp [Date.not_lt] <;> tauto

/-- Claim C4 counterexample: with the empty string supplied as the
category argument, `filter_expenses` returns a record whose category
does not case-insensitively equal the supplied category — so the result
is not "exactly the records satisfying all supplied predicates". -/
theorem claim4_counterexample :
    filter_expenses [Expense.mk "1" 5 "food" ⟨2024, 1, 1⟩ ""]
        (some "") none none =
      [Expense.mk "1" 5 "food" ⟨2024, 1, 1⟩ ""] ∧
    decide (pyLower (Expense.mk "1" 5 "food" ⟨2024, 1, 1⟩ "").category =
      pyLower "") = false :=
  ⟨rfl, rfl⟩

/-- Claim C4 (amended): `filter_expenses` returns exactly the records
satisfying all supplied predicates — category compared case-insensitively
for equality when the supplied category is non-empty (a supplied empty
string imposes no category predicate, by Python truthiness), date within
the inclusive supplied bounds — ordered by date descending. -/
theorem claim4_amended (s : List Expense) (category : Option String)
    (start fin : Option Date) :
    List.Perm (filter_expenses s category start fin)
      (s.filter fun e => decide (amendedKeep category start fin e)) ∧
    List.Sorted dateGe (filter_expenses s category start fin) := by
  constructor
  · unfold filter_expenses sortDesc
    refine (List.perm_insertionSort _ _).trans ?_
    rw [List.filter_congr (fun e _ => ?_)]
    rw [Bool.eq_iff_iff]
    simp [filterKeep_iff]
  · exact List.sorted_insertionSort _ _

/-- Claim C5: `total` is the sum of `amount` over exactly the records
`filter_expenses` returns for the same arguments, and with no category
and both bounds supplied it is the sum of `amount` over exactly the
records whose date lies in the inclusive range. -/
theorem claim5_total (s : List Expense) (category : Option String)
    (start fin : Option Date) (a b : Date) :
    total s category start fin =
      ((filter_expenses s category start fin).map Expense.amount).sum ∧
    total s none (some a) (some b) =
      ((s.filter fun e =>
          decide (Date.le a e.date ∧ Date.le e.date b)).map
        Expense.amount).sum := by
  refine ⟨rfl, ?_⟩
  unfold total filter_expenses sortDesc
  rw [List.Perm.sum_eq (List.Perm.map Expense.amount
    (List.perm_insertionSort dateGe _))]
  rw [List.filter_congr (fun e _ => ?_)]
  rw [Bool.eq_iff_iff]
  simp [filterKeep, Date.not_lt]

/-- Claim C9: supplying the empty string as the category argument
applies no category predicate at all — `filter_expenses` behaves
exactly as with no category argument, returning every record within the
date bounds whatever its category. -/
theorem claim9_empty_category (s : List Expense) (start fin : Option Date) :
    filter_expenses s (some "") start fin = filter_expenses s none start fin := by
  have h1 : ∀ x ∈ s,
      filterKeep (some "") start fin x = filterKeep none start fin x := by
    intro x _
    simp [filterKeep]
  unfold filter_expenses
  rw [List.filter_congr h1]

/-- Claim C7 counterexample: on a one-record store, `list_expenses`
with limit 0 returns the whole one-record store — its length is 1, not
the 0 records the claim's "first `limit` records" demands (Python
`if limit` treats 0 as absent). -/
theorem claim7_counterexample :
    list_expenses [Expense.mk "1" 5 "a" ⟨2024, 1, 1⟩ ""] (some 0) =
      [Expense.mk "1" 5 "a" ⟨2024, 1, 1⟩ ""] ∧
    (list_expenses [Expense.mk "1" 5 "a" ⟨2024, 1, 1⟩ ""] (some 0)).length
      = 1 :=
  ⟨rfl, rfl⟩

/-- Claim C7 (amended): with no limit, `list_expenses` returns all
records ordered by date descending; a limit of 0 behaves exactly like no
limit (Python truthiness); a positive limit returns the first `limit`
records of that ordering; a negative limit drops that many records from
the end. -/
theorem claim7_amended (s : List Expense) (n : Int) :
    List.Perm (list_expenses s none) s ∧
    List.Sorted dateGe (list_expenses s none) ∧
    list_expenses s (some 0) = list_expenses s none ∧
    (0 < n → list_expenses s (some n) = (list_expenses s none).take n.toNat) ∧
    (n < 0 → list_expenses s (some n) =
      (list_expenses s none).take
        ((list_expenses s none).length - (-n).toNat)) := by
  refine ⟨List.perm_insertionSort _ _, List.sorted_insertionSort _ _, rfl,
    ?_, ?_⟩
  · intro hn
    show (if n = 0 then sortDesc s
      else if 0 < n then (sortDesc s).take n.toNat
      else (sortDesc s).take ((sortDesc s).length - (-n).toNat)) = _
    rw [if_neg (by omega : ¬ n = 0), if_pos hn]
    rfl
  · intro hn
    show (if n = 0 then sortDesc s
      else if 0 < n then (sortDesc s).take n.toNat
      else (sortDesc s).take ((sortDesc s).length - (-n).toNat)) = _
    rw [if_neg (by omega : ¬ n = 0), if_neg (by omega : ¬ 0 < n)]
    rfl

/-- Claim C7 witness: with limit 1 on a two-record store, the result is
the first record of the date-descending ordering. -/
theorem claim7_witness :
    (0 : Int) < 1 ∧
    list_expenses
        [Expense.mk "1" 5 "a" ⟨2024, 1, 1⟩ "",
         Expense.mk "2" 7 "b" ⟨2024, 3, 1⟩ ""] (some 1) =
      (list_expenses
        [Expense.mk "1" 5 "a" ⟨2024, 1, 1⟩ "",
         Expense.mk "2" 7 "b" ⟨2024, 3, 1⟩ ""] none).take (Int.toNat 1) :=
  ⟨by decide,
   (claim7_amended
     [Expense.mk "1" 5 "a" ⟨2024, 1, 1⟩ "",
      Expense.mk "2" 7 "b" ⟨2024, 3, 1⟩ ""] 1).2.2.2.1 (by decide)⟩

/-! ### Claim C8: date parsing policy -/

/-- Claim C8: `parse_date` returns "now" exactly when the stripped
input is empty or case-insensitively `today`/`t`; otherwise it tries
`%Y-%m-%d`, `%d-%m-%Y`, `%d/%m/%Y` in that order, returning the first
success, then falls back to the generic parse `iso`, and fails (raises)
iff everything fails.  In particular `01-02-2024` is read day-first as
1 February 2024 while `2024-01-02` is read as 2 January 2024. -/
theorem claim8_parse_date (iso : String → Option Date) (today : Date)
    (text : String) :
    ((pyStrip text = "" ∨ pyLower (pyStrip text) = "today" ∨
        pyLower (pyStrip text) = "t") →
      parse_date iso today text = some today) ∧
    (¬(pyStrip text = "" ∨ pyLower (pyStrip text) = "today" ∨
        pyLower (pyStrip text) = "t") →
      (∀ d, strptimeYMD (pyStrip text) = some d →
        parse_date iso today text = some d) ∧
      (strptimeYMD (pyStrip text) = none →
        ∀ d, strptimeDMY '-' (pyStrip text) = some d →
          parse_date iso today text = some d) ∧
      (strptimeYMD (pyStrip text) = none →
        strptimeDMY '-' (pyStrip text) = none →
        ∀ d, strptimeDMY '/' (pyStrip text) = some d →
          parse_date iso today text = some d) ∧
      (strptimeYMD (pyStrip text) = none →
        strptimeDMY '-' (pyStrip text) = none →
        strptimeDMY '/' (pyStrip text) = none →
          parse_date iso today text = iso (pyStrip text))) ∧
    (parse_date iso today text = none ↔
      ¬(pyStrip text = "" ∨ pyLower (pyStrip text) = "today" ∨
          pyLower (pyStrip text) = "t") ∧
      strptimeYMD (pyStrip text) = none ∧
      strptimeDMY '-' (pyStrip text) = none ∧
      strptimeDMY '/' (pyStrip text) = none ∧
      iso (pyStrip text) = none) ∧
    parse_date iso today "01-02-2024" = some ⟨2024, 2, 1⟩ ∧
    parse_date iso today "2024-01-02" = some ⟨2024, 1, 2⟩ := by
  by_cases hc : pyStrip text = "" ∨ pyLower (pyStrip text) = "today" ∨
      pyLower (pyStrip text) = "t"
  · have heq : parse_date iso today text = some today := by
      unfold parse_date
      rw [if_pos (by
        simp only [Bool.or_eq_true, decide_eq_true_eq, or_assoc]
        exact hc)]
    refine ⟨fun _ => heq, fun h => absurd hc h, ?_, rfl, rfl⟩
    rw [heq]
    simp [hc]
  · have hne : ¬((pyStrip text = "" || pyLower (pyStrip text) = "today" ||
        pyLower (pyStrip text) = "t") = true) := by
      simp only [Bool.or_eq_true, decide_eq_true_eq, or_assoc]
      exact hc
    have hbranch : parse_date iso today text =
        (match strptimeYMD (pyStrip text) with
         | some d => some d
         | none =>
           match strptimeDMY '-' (pyStrip text) with
           | some d => some d
           | none =>
             match strptimeDMY '/' (pyStrip text) with
             | some d => some d
             | none => iso (pyStrip text)) := by
      unfold parse_date
      rw [if_neg hne]
    refine ⟨fun h => absurd h hc, fun _ => ⟨?_, ?_, ?_, ?_⟩, ?_, rfl, rfl⟩
    · intro d hd
      rw [hbranch, hd]
    · intro hY d hd
      rw [hbranch, hY, hd]
    · intro hY hdash d hd
      rw [hbranch, hY, hdash, hd]
    · intro hY hdash hslash
      rw [hbranch, hY, hdash, hslash]
    · rw [hbranch]
      cases hY : strptimeYMD (pyStrip text) with
      | some d => simp [hc]
      | none =>
        cases hdash : strptimeDMY '-' (pyStrip text) with
        | some d => simp [hc]
        | none =>
          cases hslash : strptimeDMY '/' (pyStrip text) with
          | some d => simp [hc]
          | none => simp [hc]

/-- Claim C8 witness: with stripped input `T` (case-insensitive token
`t`), `parse_date` returns the supplied "today". -/
theorem claim8_witness :
    parse_date (fun _ => none) ⟨2025, 6, 1⟩ " T " = some ⟨2025, 6, 1⟩ :=
  (claim8_parse_date (fun _ => none) ⟨2025, 6, 1⟩ " T ").1
    (by right; right; rfl)

/-! ### Claim C6: JSON import -/

theorem importStep_of_not_ok {iso : String → Option Date} {today : Date}
    {r : RawRecord} (s : List Expense)
    (h : ¬ importOk iso today r = true) : importStep iso today s r = s := by
  unfold importStep
  cases hA : r.amount with
  | none => rfl
  | some a =>
    cases hP : parse_date iso today (r.date.getD "") with
    | none => rfl
    | some d =>
      exact absurd (by simp [importOk, hA, hP]) h

theorem importStep_length_of_ok {iso : String → Option Date} {today : Date}
    {r : RawRecord} (s : List Expense)
    (h : importOk iso today r = true) :
    (importStep iso today s r).length = s.length + 1 := by
  unfold importOk at h
  rw [Bool.and_eq_true, Option.isSome_iff_exists, Option.isSome_iff_exists] at h
  obtain ⟨⟨a, hA⟩, d, hP⟩ := h
  unfold importStep
  rw [hA, hP]
  simp [add_expense]

/-- Claim C6: importing a collection appends, via `add_expense`, exactly
the records whose amount and date parse; the others are skipped silently
(the fold just carries the store on), with no rollback of records
already added — in particular a file with one valid record and one with
an unparseable amount grows the store by exactly one record. -/
theorem claim6_import (iso : String → Option Date) (today : Date)
    (s : List Expense) (raws : List RawRecord) :
    import_from_json iso today s raws =
      (raws.filter (importOk iso today)).foldl (importStep iso today) s ∧
    (import_from_json iso today s raws).length =
      s.length + (raws.filter (importOk iso today)).length ∧
    (import_from_json iso today []
        [RawRecord.mk (some 5) (some "food") (some "2024-01-01") (some "lunch"),
         RawRecord.mk none (some "junk") (some "2024-01-02") none]).length
      = 1 := by
  have key : ∀ (l : List RawRecord) (st : List Expense),
      import_from_json iso today st l =
        (l.filter (importOk iso today)).foldl (importStep iso today) st := by
    intro l
    induction l with
    | nil => intro st; rfl
    | cons r rest ih =>
      intro st
      by_cases hok : importOk iso today r = true
      · rw [List.filter_cons_of_pos hok]
        show import_from_json iso today (importStep iso today st r) rest = _
        rw [ih (importStep iso today st r)]
        rfl
      · rw [List.filter_cons_of_neg (by simpa using hok)]
        show import_from_json iso today (importStep iso today st r) rest = _
        rw [importStep_of_not_ok st hok]
        exact ih st
  have len : ∀ (l : List RawRecord) (st : List Expense),
      (∀ r ∈ l, importOk iso today r = true) →
      (l.foldl (importStep iso today) st).length = st.length + l.length := by
    intro l
    induction l with
    | nil => intro st _; rfl
    | cons r rest ih =>
      intro st hall
      rw [List.foldl_cons,
        ih (importStep iso today st r)
          (fun x hx => hall x (List.mem_cons_of_mem _ hx)),
        importStep_length_of_ok st (hall r (List.mem_cons_self _ _)),
        List.length_cons]
      omega
  refine ⟨key raws s, ?_, rfl⟩
  rw [key raws s]
  exact len _ s (fun r hr => (List.mem_filter.1 hr).2)

/-! ### Claim C10: summary keyed by exact category string -/

theorem lookupD_updAssoc :
    ∀ (m : List (String × ℚ)) (k : String) (amt : ℚ) (c : String),
      lookupD (updAssoc m k amt) c =
        if k = c then lookupD m c + amt else lookupD m c := by
  intro m
  induction m with
  | nil =>
    intro k amt c
    by_cases h : k = c <;> simp [updAssoc, lookupD, h]
  | cons p rest ih =>
    intro k amt c
    obtain ⟨k1, v⟩ := p
    by_cases h1 : k1 = k
    · subst h1
      by_cases h2 : k1 = c <;> simp [updAssoc, lookupD, h2]
    · by_cases h2 : k1 = c
      · have hk : ¬ k = c := fun hkc => h1 (by rw [h2, hkc])
        have hck : ¬ c = k := fun hck => hk hck.symm
        simp [updAssoc, lookupD, h1, h2, hk, hck]
      · simp [updAssoc, lookupD, h1, h2, ih k amt c]

theorem keys_updAssoc :
    ∀ (m : List (String × ℚ)) (k : String) (amt : ℚ) (c : String),
      c ∈ (updAssoc m k amt).map Prod.fst ↔
        c ∈ m.map Prod.fst ∨ c = k := by
  intro m
  induction m with
  | nil =>
    intro k amt c
    simp [updAssoc]
  | cons p rest ih =>
    intro k amt c
    obtain ⟨k1, v⟩ := p
    unfold updAssoc
    by_cases h1 : k1 = k
    · subst h1
      rw [if_pos rfl]
      simp only [List.map_cons, List.mem_cons]
      constructor
      · rintro (rfl | h) <;> simp_all
      · rintro ((rfl | h) | rfl) <;> simp_all
    · rw [if_neg h1]
      simp only [List.map_cons, List.mem_cons, ih k amt c]
      tauto

theorem lookupD_fold :
    ∀ (l : List Expense) (acc : List (String × ℚ)) (c : String),
      lookupD (l.foldl (fun a e => updAssoc a e.category e.amount) acc) c =
        lookupD acc c +
          ((l.filter fun e => decide (e.category = c)).map
            Expense.amount).sum := by
  intro l
  induction l with
  | nil => intro acc c; simp
  | cons e rest ih =>
    intro acc c
    rw [List.foldl_cons, ih (updAssoc acc e.category e.amount) c,
      lookupD_updAssoc]
    by_cases h : e.category = c
    · rw [if_pos h, List.filter_cons_of_pos (by simpa using h)]
      simp only [List.map_cons, List.sum_cons]
      ring
    · rw [if_neg h, List.filter_cons_of_neg (by simpa using h)]

theorem keys_fold :
    ∀ (l : List Expense) (acc : List (String × ℚ)) (c : String),
      (c ∈ (l.foldl (fun a e => updAssoc a e.category e.amount) acc).map
          Prod.fst) ↔
        c ∈ acc.map Prod.fst ∨ ∃ e ∈ l, e.category = c := by
  intro l
  induction l with
  | nil => intro acc c; simp
  | cons e rest ih =>
    intro acc c
    rw [List.foldl_cons, ih (updAssoc acc e.category e.amount) c,
      keys_updAssoc]
    simp only [List.mem_cons]
    constructor
    · rintro ((h | rfl) | ⟨x, hx, hcat⟩)
      · exact Or.inl h
      · exact Or.inr ⟨e, Or.inl rfl, rfl⟩
      · exact Or.inr ⟨x, Or.inr hx, hcat⟩
    · rintro (h | ⟨x, (rfl | hx), hcat⟩)
      · exact Or.inl (Or.inl h)
      · exact Or.inl (Or.inr hcat.symm)
      · exact Or.inr ⟨x, hx, hcat⟩

/-- Claim C10: the summary mapping is keyed by the exact stored category
strings, compared case-sensitively — a key is present iff some
date-filtered record carries exactly that category string, and its value
is the sum of `amount` over exactly those records; so `"Food"` and
`"food"` records land under two distinct keys with separate sums, as
the concrete two-record store shows. -/
theorem claim10_summary (s : List Expense) (start fin : Option Date)
    (c : String) :
    lookupD (summary_by_category s start fin) c =
      (((filter_expenses s none start fin).filter fun e =>
          decide (e.category = c)).map Expense.amount).sum ∧
    (c ∈ (summary_by_category s start fin).map Prod.fst ↔
      ∃ e ∈ filter_expenses s none start fin, e.category = c) ∧
    summary_by_category
        [Expense.mk "1" 5 "Food" ⟨2024, 1, 2⟩ "",
         Expense.mk "2" 7 "food" ⟨2024, 1, 1⟩ ""] none none =
      [("Food", 5), ("food", 7)] := by
  refine ⟨?_, ?_, rfl⟩
  · unfold summary_by_category
    rw [lookupD_fold]
    show (0 : ℚ) + _ = _
    rw [zero_add]
  · unfold summary_by_category
    rw [keys_fold]
    simp

end ExpenseTracker
